import Mathlib

/-!
Shallow embedding of the sharkiq library (package `sharkiqpy`, the latest
version in the repository): the Ayla-networks auth/session state machine of
`src/sharkiqpy/ayla_api.py` and the device property-cache model of
`src/sharkiqpy/sharkiq.py`.  Python strings that get sliced and case-folded
are modelled as lists of characters (`PStr`); Python dicts as association
lists with first-match lookup and in-place replacement, which agrees with
dict semantics on the unique-key dictionaries the code builds; JSON scalars
as `JVal`; wall-clock time as an explicit `now : Int` argument (seconds);
HTTP traffic as explicit effect lists, with each server response injected as
an argument.  Exceptions are modelled with `Except PyError`.
-/

namespace SharkiqPy

/-- Scalar JSON values as they appear in the Ayla property dictionaries. -/
inductive JVal where
  | null
  | bool (b : Bool)
  | int (n : Int)
  | str (s : String)
deriving DecidableEq

/-- Python truthiness of an optional dictionary entry, as used by
`if self.properties_full.get(property_name, \x7b\x7d).get('read_only'):`. -/
def truthy : Option JVal → Bool
  | none => false
  | some .null => false
  | some (.bool b) => b
  | some (.int n) => n != 0
  | some (.str s) => s != ""

/-- Association-list lookup: the binding a Python dict holds for `k`. -/
def alGet {κ α : Type} [DecidableEq κ] : List (κ × α) → κ → Option α
  | [], _ => none
  | kv :: rest, k => if kv.1 = k then some kv.2 else alGet rest k

/-- `d[k] = v` on a Python dict: replace the binding in place, else append. -/
def alInsert {κ α : Type} [DecidableEq κ] : List (κ × α) → κ → α → List (κ × α)
  | [], k, v => [(k, v)]
  | kv :: rest, k, v => if kv.1 = k then (k, v) :: rest else kv :: alInsert rest k v

/-- `d.update(e)` on a Python dict: fold the bindings of `e` into `d`. -/
def alUpdate {κ α : Type} [DecidableEq κ] (d e : List (κ × α)) : List (κ × α) :=
  e.foldl (fun acc kv => alInsert acc kv.1 kv.2) d

/-- A Python string, as a list of characters. -/
abbrev PStr := List Char

/-- `str.upper()` (the property names involved are ASCII). -/
def upper (s : PStr) : PStr := s.map Char.toUpper

/-- One property's JSON dictionary (the value of `p['property']`). -/
abbrev PropDict := List (String × JVal)

/-- The device's property cache `properties_full`: cleaned name to dict. -/
abbrev PMap := List (PStr × PropDict)

/-- The exceptions the embedded code raises (`sharkiqpy/exc.py` only declares
the classes; `indexError` stands for Python's own `IndexError`). -/
inductive PyError where
  | sharkIqAuthError (msg : String)
  | sharkIqAuthExpiredError
  | sharkIqNotAuthedError
  | sharkIqReadOnlyPropertyError (msg : String)
  | indexError
deriving DecidableEq

/-- The JSON body a successful (or failed) sign-in/refresh response carries:
`access_token`, `refresh_token`, `expires_in`, and the `error` field the code
reads on HTTP 401/404. -/
structure LoginResult where
  access_token : String
  refresh_token : String
  expires_in : Int
  error : String
deriving DecidableEq

/-- The mutable fields of `AylaApi` (`src/sharkiqpy/ayla_api.py`). -/
structure AylaState where
  _email : String
  _password : String
  _app_id : String
  _app_secret : String
  _access_token : Option String
  _refresh_token : Option String
  _auth_expiration : Option Int
  _is_authed : Bool
deriving DecidableEq

/-- `AylaApi.__init__`. -/
def AylaApi.init (email password app_id app_secret : String) : AylaState :=
  { _email := email, _password := password, _app_id := app_id, _app_secret := app_secret,
    _access_token := none, _refresh_token := none, _auth_expiration := none,
    _is_authed := false }

/-- The HTTP traffic the session code produces, as structured events. -/
inductive AuthEffect where
  | postSignIn (email password app_id app_secret : String)
  | postRefreshToken (tok : Option String)
  | httpRequest (method url : String)
deriving DecidableEq

/-- `AylaApi._set_credentials(status_code, login_result)`; `now` is the value
of `datetime.now()` at the call. -/
def _set_credentials (status_code : Nat) (login_result : LoginResult) (now : Int)
    (s : AylaState) : Except PyError AylaState :=
  if status_code == 404 then
    .error (.sharkIqAuthError (login_result.error ++ " (Confirm app_id and app_secret are correct)"))
  else if status_code == 401 then
    .error (.sharkIqAuthError login_result.error)
  else
    .ok { s with
      _access_token := some login_result.access_token,
      _refresh_token := some login_result.refresh_token,
      _auth_expiration := some (now + login_result.expires_in),
      _is_authed := true }

/-- `AylaApi.sign_in`: posts the login data and stores the credentials the
server (`status`, `result`) returned. -/
def sign_in (status : Nat) (result : LoginResult) (now : Int) (s : AylaState) :
    List AuthEffect × Except PyError AylaState :=
  ([.postSignIn s._email s._password s._app_id s._app_secret],
   _set_credentials status result now s)

/-- `AylaApi.refresh_auth`: posts the stored refresh token and stores the
credentials the server returned. -/
def refresh_auth (status : Nat) (result : LoginResult) (now : Int) (s : AylaState) :
    List AuthEffect × Except PyError AylaState :=
  ([.postRefreshToken s._refresh_token], _set_credentials status result now s)

/-- The `AylaApi.auth_expiration` property: `None` when not authed, an error
on the inconsistent authed-without-expiration state, else the stored expiry. -/
def auth_expiration (s : AylaState) : Except PyError (Option Int) :=
  if !s._is_authed then .ok none
  else
    match s._auth_expiration with
    | none => .error .sharkIqNotAuthedError
    | some t => .ok (some t)

/-- The `AylaApi.token_expired` property:
`datetime.now() > self.auth_expiration + timedelta(seconds=60)`,
and `True` when `auth_expiration` is `None`. -/
def token_expired (now : Int) (s : AylaState) : Except PyError Bool :=
  match auth_expiration s with
  | .error e => .error e
  | .ok none => .ok true
  | .ok (some t) => .ok (decide (now > t + 60))

/-- `AylaApi.check_auth(confirm_still_valid)`, exactly as written: it raises
`SharkIqAuthExpiredError` when `confirm_still_valid` is set and the token is
NOT expired (`elif confirm_still_valid and not self.token_expired`). -/
def check_auth (confirm_still_valid : Bool) (now : Int) (s : AylaState) :
    Except PyError Unit :=
  if !(s._access_token.isSome && s._is_authed) then .error .sharkIqNotAuthedError
  else if confirm_still_valid then
    match token_expired now s with
    | .error e => .error e
    | .ok te => if !te then .error .sharkIqAuthExpiredError else .ok ()
  else .ok ()

/-- HTTP headers as a Python dict. -/
abbrev Headers := List (String × String)

/-- The `AylaApi.auth_header` property. -/
def auth_header (now : Int) (s : AylaState) : Except PyError Headers :=
  match check_auth false now s with
  | .error e => .error e
  | .ok _ => .ok [("Authorization", "auth_token " ++ s._access_token.getD "")]

/-- `AylaApi.request(method, url, headers, auto_refresh)`: the `try`/`except
SharkIqAuthExpiredError` around `check_auth()` (called with its default
`confirm_still_valid=False`), then the header merge
`\x7b**headers, **self.auth_header\x7d`, then the outgoing request.  `refresh_status`
and `refresh_result` are the server's answer if a refresh gets posted. -/
def request (method url : String) (headers : Option Headers) (auto_refresh : Bool)
    (now : Int) (refresh_status : Nat) (refresh_result : LoginResult) (s : AylaState) :
    List AuthEffect × Except PyError (AylaState × Headers) :=
  let step : List AuthEffect × Except PyError AylaState :=
    match check_auth false now s with
    | .error .sharkIqAuthExpiredError =>
        if auto_refresh then refresh_auth refresh_status refresh_result now s
        else ([], .error .sharkIqAuthExpiredError)
    | .error e => ([], .error e)
    | .ok _ => ([], .ok s)
  match step with
  | (effs, .error e) => (effs, .error e)
  | (effs, .ok s1) =>
    let hs : Except PyError Headers :=
      match headers with
      | none => auth_header now s1
      | some h =>
        match auth_header now s1 with
        | .error e => .error e
        | .ok ah => .ok (alUpdate h ah)
    match hs with
    | .error e => (effs, .error e)
    | .ok hdrs => (effs ++ [.httpRequest method url], .ok (s1, hdrs))

/-- `_clean_property_name` (`src/sharkiqpy/sharkiq.py`):
strip a leading `SET_`/`GET_` (case-insensitive) once. -/
def _clean_property_name (raw_property_name : PStr) : PStr :=
  if upper (raw_property_name.take 4) = ['S', 'E', 'T', '_']
      ∨ upper (raw_property_name.take 4) = ['G', 'E', 'T', '_'] then
    raw_property_name.drop 4
  else
    raw_property_name

/-- One element of the server's properties listing: the dictionary
`p['property']`, with its `name` entry lifted into a field. -/
structure SrvProp where
  name : PStr
  attrs : PropDict
deriving DecidableEq

/-- The `settable_properties` set comprehension of `_do_update`:
cleaned names of the entries whose first three characters uppercase to `SET`. -/
def settable_props (properties : List SrvProp) : List PStr :=
  ((properties.map (fun p => p.name)).filter
    (fun p => upper (p.take 3) == ['S', 'E', 'T'])).map _clean_property_name

/-- The `readable_properties` dict comprehension of `_do_update`: cleaned name
to property dict, skipping entries whose whole name uppercases to `SET`. -/
def readable_properties (properties : List SrvProp) : PMap :=
  alUpdate []
    ((properties.filter (fun p => !(upper p.name == ['S', 'E', 'T']))).map
      (fun p => (_clean_property_name p.name, p.attrs)))

/-- Python set union for the settable-name sets (membership is what the
claims are about). -/
def sunion (a b : List PStr) : List PStr := a ++ b.filter (fun x => !(a.contains x))

/-- The device descriptor the constructor copies from
(`dsn`, `key`, `oem_model`, `product_name`). -/
structure DeviceDct where
  dsn : String
  key : Int
  oem_model : String
  product_name : String
deriving DecidableEq

/-- The mutable fields of `SharkIqVacuum` (`src/sharkiqpy/sharkiq.py`). -/
structure SharkIqVacuum where
  _dsn : String
  _key : Int
  _oem_model_number : String
  _vac_model_number : Option JVal
  _vac_serial_number : Option JVal
  properties_full : PMap
  _settable_properties : Option (List PStr)
  _name : String
deriving DecidableEq

/-- `SharkIqVacuum.__init__(ayla_api, device_dct)`: fields copied verbatim,
empty defaultdict cache, no settable set yet. -/
def SharkIqVacuum.init (device_dct : DeviceDct) : SharkIqVacuum :=
  { _dsn := device_dct.dsn, _key := device_dct.key,
    _oem_model_number := device_dct.oem_model,
    _vac_model_number := none, _vac_serial_number := none,
    properties_full := [], _settable_properties := none,
    _name := device_dct.product_name }

/-- The HTTP traffic the device code produces (endpoint URLs carried as their
structured parts). -/
inductive DevEffect where
  | getProperties (dsn : String) (names : Option (List PStr))
  | postDatapoint (dsn : String) (prop : PStr) (value : JVal)
deriving DecidableEq

/-- `self.properties_full[key]` where `properties_full` is a
`defaultdict(dict)`: a missing key is inserted with an empty dict and that
fresh dict returned. -/
def dd_getitem (m : PMap) (k : PStr) : PropDict × PMap :=
  match alGet m k with
  | some d => (d, m)
  | none => ([], m ++ [(k, [])])

/-- `SharkPropertiesView.__getitem__`:
`self._shark.properties_full[key].get('value')` (the defaultdict access
included). -/
def view_getitem (s : SharkIqVacuum) (k : PStr) : Option JVal × SharkIqVacuum :=
  let dm := dd_getitem s.properties_full k
  (alGet dm.1 "value", { s with properties_full := dm.2 })

/-- `SharkIqVacuum.get_property_value` (the enum-to-string normalization is a
no-op here: names are already plain strings). -/
def get_property_value (property_name : PStr) (s : SharkIqVacuum) :
    Option JVal × SharkIqVacuum :=
  view_getitem s property_name

/-- `SharkIqVacuum.set_property_value`: refuse a property whose cached entry
has a truthy `read_only`, else post the datapoint and merge the server's
response `resp` into the cached entry (via the defaultdict access). -/
def set_property_value (property_name : PStr) (value : JVal) (resp : PropDict)
    (s : SharkIqVacuum) : Except PyError (List DevEffect × SharkIqVacuum) :=
  if truthy (alGet ((alGet s.properties_full property_name).getD []) "read_only") then
    .error (.sharkIqReadOnlyPropertyError (String.mk property_name ++ " is read only"))
  else
    let dm := dd_getitem s.properties_full property_name
    .ok ([.postDatapoint s._dsn (['S', 'E', 'T', '_'] ++ property_name) value],
         { s with properties_full := alInsert dm.2 property_name (alUpdate dm.1 resp) })

/-- `SharkIqVacuum.set_property_value_async`: as written in the source it has
no read-only check at all; it posts and merges unconditionally. -/
def set_property_value_async (property_name : PStr) (value : JVal) (resp : PropDict)
    (s : SharkIqVacuum) : Except PyError (List DevEffect × SharkIqVacuum) :=
  let dm := dd_getitem s.properties_full property_name
  .ok ([.postDatapoint s._dsn (['S', 'E', 'T', '_'] ++ property_name) value],
       { s with properties_full := alInsert dm.2 property_name (alUpdate dm.1 resp) })

/-- `SharkIqVacuum._do_update(full_update, properties)`. -/
def _do_update (full_update : Bool) (properties : List SrvProp) (s : SharkIqVacuum) :
    SharkIqVacuum :=
  let settable_properties := settable_props properties
  let readable := readable_properties properties
  let newSettable :=
    if full_update || s._settable_properties.isNone then some settable_properties
    else some (sunion (s._settable_properties.getD []) settable_properties)
  let base := if full_update then ([] : PMap) else s.properties_full
  { s with _settable_properties := newSettable,
           properties_full := alUpdate base readable }

/-- `SharkIqVacuum.update(property_list)`: a GET of all properties (or the
named ones), then `_do_update` with `full_update = property_list is None`;
`resp` is the server's decoded answer. -/
def update (property_list : Option (List PStr)) (resp : List SrvProp)
    (s : SharkIqVacuum) : List DevEffect × SharkIqVacuum :=
  ([.getProperties s._dsn property_list], _do_update property_list.isNone resp s)

/-- One element of the metadata listing `GET .../data.json` returns: its
`value` dictionary (`data.get('value', \x7b\x7d)`). -/
structure MetaEntry where
  value : PropDict
deriving DecidableEq

/-- `SharkIqVacuum._update_metadata(metadata)`: `metadata.pop()` takes the
last element (raising `IndexError` on an empty list) and stores its
`vacModelNumber`/`vacSerialNumber` entries. -/
def _update_metadata (metadata : List MetaEntry) (s : SharkIqVacuum) :
    Except PyError SharkIqVacuum :=
  match metadata.getLast? with
  | none => .error .indexError
  | some data =>
      .ok { s with _vac_model_number := alGet data.value "vacModelNumber",
                   _vac_serial_number := alGet data.value "vacSerialNumber" }

/-- The `SharkIqVacuum.vac_model_number` property, exactly as the source has
it: `return self._oem_model_number`. -/
def vac_model_number (s : SharkIqVacuum) : String := s._oem_model_number

/-- `SharkIqVacuum.oem_model_number`. -/
def oem_model_number (s : SharkIqVacuum) : String := s._oem_model_number

/-- One call of `update`, as a full or named (partial) refresh together with
the server's response to it. -/
inductive UpdateOp where
  | refreshAll (resp : List SrvProp)
  | refreshSome (resp : List SrvProp)

/-- A sequence of `update` calls applied to a device (each op carrying its
server response); named refreshes run `_do_update` with `full_update = false`,
full ones with `true`, exactly as `update` dispatches. -/
def runUpdates (ops : List UpdateOp) (s : SharkIqVacuum) : SharkIqVacuum :=
  ops.foldl
    (fun d op =>
      match op with
      | .refreshAll r => _do_update true r d
      | .refreshSome r => _do_update false r d) s

/-- Spec-side definition for the settable-set claim, following the claim's
words: the union of the settable names observed in every update since the
last full update (a full update resets the accumulator to its own
observation). -/
def unionSinceLastFull (ops : List UpdateOp) : List PStr :=
  ops.foldl
    (fun acc op =>
      match op with
      | .refreshAll r => settable_props r
      | .refreshSome r => acc ++ settable_props r) []

/-- Whether an `Except` outcome is the `SharkIqNotAuthedError`. -/
def isNotAuthedErr {α : Type} : Except PyError α → Bool
  | .error .sharkIqNotAuthedError => true
  | _ => false

/-! Helper lemmas about the association-list model of Python dicts. -/

lemma alGet_alInsert {κ α : Type} [DecidableEq κ] (m : List (κ × α)) (k k' : κ) (v : α) :
    alGet (alInsert m k v) k' = if k = k' then some v else alGet m k' := by
  induction m with
  | nil => simp [alInsert, alGet]
  | cons kv rest ih =>
      by_cases h : kv.1 = k
      · simp only [alInsert, if_pos h, alGet]
        by_cases h2 : k = k'
        · simp [h2]
        · have h3 : ¬kv.1 = k' := by rw [h]; exact h2
          simp [h2, h3]
      · simp only [alInsert, if_neg h, alGet, ih]
        by_cases h2 : kv.1 = k'
        · have h3 : ¬k = k' := fun e => h (by rw [e, h2])
          simp [h2, h3]
        · simp [h2]

lemma isSome_alGet_iff {κ α : Type} [DecidableEq κ] (m : List (κ × α)) (k : κ) :
    (alGet m k).isSome = true ↔ ∃ kv ∈ m, kv.1 = k := by
  induction m with
  | nil => simp [alGet]
  | cons kv rest ih =>
      by_cases h : kv.1 = k
      · simp only [alGet, if_pos h, Option.isSome_some]
        exact ⟨fun _ => ⟨kv, List.mem_cons_self _ _, h⟩, fun _ => trivial⟩
      · simp only [alGet, if_neg h]
        rw [ih]
        constructor
        · rintro ⟨kv0, hm, hk⟩
          exact ⟨kv0, List.mem_cons_of_mem _ hm, hk⟩
        · rintro ⟨kv0, hm, hk⟩
          rcases List.mem_cons.mp hm with he | he
          · exact absurd (he ▸ hk) h
          · exact ⟨kv0, he, hk⟩

lemma isSome_alGet_alUpdate {κ α : Type} [DecidableEq κ] (e m : List (κ × α)) (k : κ) :
    (alGet (alUpdate m e) k).isSome = true
      ↔ ((alGet m k).isSome = true ∨ ∃ kv ∈ e, kv.1 = k) := by
  induction e generalizing m with
  | nil => simp [alUpdate]
  | cons kv rest ih =>
      have step : alUpdate m (kv :: rest) = alUpdate (alInsert m kv.1 kv.2) rest := rfl
      rw [step, ih]
      constructor
      · rintro (h1 | h1)
        · rw [alGet_alInsert] at h1
          by_cases h : kv.1 = k
          · exact Or.inr ⟨kv, List.mem_cons_self _ _, h⟩
          · rw [if_neg h] at h1
            exact Or.inl h1
        · rcases h1 with ⟨kv0, hm, hk⟩
          exact Or.inr ⟨kv0, List.mem_cons_of_mem _ hm, hk⟩
      · rintro (h1 | h1)
        · left
          rw [alGet_alInsert]
          by_cases h : kv.1 = k
          · rw [if_pos h]
            rfl
          · rw [if_neg h]
            exact h1
        · rcases h1 with ⟨kv0, hm, hk⟩
          rcases List.mem_cons.mp hm with he | he
          · left
            rw [alGet_alInsert, if_pos (he ▸ hk)]
            rfl
          · right
            exact ⟨kv0, he, hk⟩

lemma alGet_alUpdate_of_not_key {κ α : Type} [DecidableEq κ] (e m : List (κ × α)) (k : κ)
    (h : ∀ kv ∈ e, kv.1 ≠ k) :
    alGet (alUpdate m e) k = alGet m k := by
  induction e generalizing m with
  | nil => rfl
  | cons kv rest ih =>
      have step : alUpdate m (kv :: rest) = alUpdate (alInsert m kv.1 kv.2) rest := rfl
      rw [step, ih _ (fun kv0 hk => h kv0 (List.mem_cons_of_mem _ hk)), alGet_alInsert,
        if_neg (h kv (List.mem_cons_self _ _))]

lemma mem_alInsert {κ α : Type} [DecidableEq κ] (m : List (κ × α)) (k0 : κ) (v : α)
    (kv' : κ × α) (h : kv' ∈ alInsert m k0 v) : kv'.1 = k0 ∨ kv' ∈ m := by
  induction m with
  | nil =>
      simp only [alInsert, List.mem_singleton] at h
      left
      rw [h]
  | cons kvh rest ih =>
      by_cases hh : kvh.1 = k0
      · simp only [alInsert, if_pos hh] at h
        rcases List.mem_cons.mp h with h1 | h1
        · left
          rw [h1]
        · right
          exact List.mem_cons_of_mem _ h1
      · simp only [alInsert, if_neg hh] at h
        rcases List.mem_cons.mp h with h1 | h1
        · right
          exact h1 ▸ List.mem_cons_self _ _
        · rcases ih h1 with h2 | h2
          · left
            exact h2
          · right
            exact List.mem_cons_of_mem _ h2

lemma mem_alUpdate {κ α : Type} [DecidableEq κ] (e m : List (κ × α)) (kv' : κ × α)
    (h : kv' ∈ alUpdate m e) : kv' ∈ m ∨ ∃ kv ∈ e, kv.1 = kv'.1 := by
  induction e generalizing m with
  | nil => exact Or.inl h
  | cons kv rest ih =>
      rcases ih _ h with h1 | h1
      · rcases mem_alInsert _ _ _ _ h1 with h2 | h2
        · exact Or.inr ⟨kv, List.mem_cons_self _ _, h2.symm⟩
        · exact Or.inl h2
      · rcases h1 with ⟨kv0, hm, hk⟩
        exact Or.inr ⟨kv0, List.mem_cons_of_mem _ hm, hk⟩

/-- The cache `readable_properties` builds holds a key exactly when some
response entry that is not a bare `SET` cleans to that key. -/
lemma readable_properties_key (resp : List SrvProp) (k : PStr) :
    (alGet (readable_properties resp) k).isSome = true
      ↔ ∃ p ∈ resp, ¬upper p.name = ['S', 'E', 'T'] ∧ _clean_property_name p.name = k := by
  rw [readable_properties, isSome_alGet_alUpdate]
  have hnil : (alGet ([] : PMap) k).isSome = false := rfl
  rw [hnil]
  simp only [Bool.false_eq_true, false_or]
  constructor
  · rintro ⟨kv, hm, hk⟩
    rcases List.mem_map.mp hm with ⟨p, hp, hf⟩
    rcases List.mem_filter.mp hp with ⟨hpr, hq⟩
    refine ⟨p, hpr, ?_, ?_⟩
    · intro e
      rw [e] at hq
      simp at hq
    · rw [← hf] at hk
      exact hk
  · rintro ⟨p, hp, hne, hk⟩
    refine ⟨(_clean_property_name p.name, p.attrs), ?_, hk⟩
    apply List.mem_map.mpr
    refine ⟨p, List.mem_filter.mpr ⟨hp, ?_⟩, rfl⟩
    simp [hne]

/-- Every key of the `readable_properties` cache is the cleaned name of some
response entry. -/
lemma readable_properties_key_src (resp : List SrvProp) (kv : PStr × PropDict)
    (h : kv ∈ readable_properties resp) :
    ∃ p ∈ resp, _clean_property_name p.name = kv.1 := by
  rcases mem_alUpdate _ _ _ h with h1 | h1
  · cases h1
  · rcases h1 with ⟨kv0, hm, hk⟩
    rcases List.mem_map.mp hm with ⟨p, hp, hf⟩
    exact ⟨p, (List.mem_filter.mp hp).1, by rw [← hk, ← hf]⟩

deriving instance DecidableEq for Except

lemma mem_sunion (a b : List PStr) (x : PStr) : x ∈ sunion a b ↔ x ∈ a ∨ x ∈ b := by
  simp only [sunion, List.mem_append, List.mem_filter, Bool.not_eq_true']
  constructor
  · rintro (h | ⟨h, _⟩)
    · exact Or.inl h
    · exact Or.inr h
  · rintro (h | h)
    · exact Or.inl h
    · by_cases ha : x ∈ a
      · exact Or.inl ha
      · refine Or.inr ⟨h, ?_⟩
        simpa using ha

/-! Concrete fixtures used by the closed theorems and witnesses. -/

/-- A freshly constructed, never-authenticated session. -/
def initApi : AylaState := AylaApi.init "user@example.com" "hunter2" "app-id" "app-secret"

/-- The session right after a successful sign-in at time 0 with
`expires_in = 3600`. -/
def signedApi : AylaState :=
  { initApi with _access_token := some "T1", _refresh_token := some "R1",
                 _auth_expiration := some 3600, _is_authed := true }

/-- A successful refresh/sign-in response body. -/
def refreshedOk : LoginResult := ⟨"T2", "R2", 86400, ""⟩

/-- C9: `_clean_property_name` strips exactly one leading `SET_`/`GET_`
(case-insensitive): prefixing any 4-character string whose uppercase form is
`SET_` or `GET_` to a name and cleaning removes exactly that prefix; a name
carrying no such prefix is returned unchanged, so the function is idempotent
on already-clean names. -/
theorem c9_clean_name_strips_one (p t s : PStr)
    (hu : upper p = ['S', 'E', 'T', '_'] ∨ upper p = ['G', 'E', 'T', '_'])
    (hs : ¬(upper (s.take 4) = ['S', 'E', 'T', '_']
            ∨ upper (s.take 4) = ['G', 'E', 'T', '_'])) :
    _clean_property_name (p ++ t) = t
    ∧ _clean_property_name s = s
    ∧ _clean_property_name (_clean_property_name s) = _clean_property_name s := by
  have hp4 : p.length = 4 := by
    rcases hu with h | h
    · have hl := congrArg List.length h
      simpa [upper] using hl
    · have hl := congrArg List.length h
      simpa [upper] using hl
  have htake : (p ++ t).take 4 = p := by
    rw [← hp4]
    exact List.take_left p t
  have hdrop : (p ++ t).drop 4 = t := by
    rw [← hp4]
    exact List.drop_left p t
  have hcond : upper ((p ++ t).take 4) = ['S', 'E', 'T', '_']
      ∨ upper ((p ++ t).take 4) = ['G', 'E', 'T', '_'] := by
    rw [htake]
    exact hu
  have h1 : _clean_property_name (p ++ t) = t := by
    rw [_clean_property_name, if_pos hcond, hdrop]
  have h2 : _clean_property_name s = s := by
    rw [_clean_property_name, if_neg hs]
  exact ⟨h1, h2, by rw [h2]; exact h2⟩

/-- Witness for C9 at a concrete input: cleaning `set_Power_Mode` (lower-case
prefix) yields `Power_Mode`, and `Power_Mode` is a fixed point. -/
theorem c9_witness :
    _clean_property_name ("set_".toList ++ "Power_Mode".toList) = "Power_Mode".toList
    ∧ _clean_property_name ("Power_Mode".toList) = "Power_Mode".toList
    ∧ _clean_property_name (_clean_property_name ("Power_Mode".toList))
        = _clean_property_name ("Power_Mode".toList) :=
  c9_clean_name_strips_one ("set_".toList) ("Power_Mode".toList) ("Power_Mode".toList)
    (by decide) (by decide)

/-- C2: the token-expiry clock, evaluated on the scenario the claim fixes.
`token_expired` is true on a never-authenticated session and false right
after signing in with `expires_in = 3600`; but the code compares
`now > expiry + 60` (the 60-second margin is ADDED to the stored expiry, not
subtracted), so 3601 seconds after that sign-in `token_expired` is still
false, against the claim; it turns true only past 3660 seconds. -/
theorem c2_token_expired_margin :
    token_expired 0 initApi = .ok true
    ∧ _set_credentials 200 ⟨"T1", "R1", 3600, ""⟩ 0 initApi = .ok signedApi
    ∧ token_expired 0 signedApi = .ok false
    ∧ token_expired 3601 signedApi = .ok false
    ∧ token_expired 3661 signedApi = .ok true := by decide

/-- C1: `request` on an expired token, evaluated at a concrete state.  At
time 3700 the token of `signedApi` is expired, yet with `auto_refresh=false`
`request` raises nothing and issues the HTTP request anyway (no
`AuthExpired` error), and with `auto_refresh=true` it performs no refresh
call at all: `check_auth()` is called with its default
`confirm_still_valid=False`, so the `except SharkIqAuthExpiredError` branch
is dead, and `check_auth`'s own expiry test is inverted (it raises exactly
when the token is NOT expired, last conjunct). -/
theorem c1_expired_request_behavior :
    token_expired 3700 signedApi = .ok true
    ∧ request "get" "https://ads-field.aylanetworks.com/apiv1/devices.json" none false
        3700 200 refreshedOk signedApi
        = ([.httpRequest "get" "https://ads-field.aylanetworks.com/apiv1/devices.json"],
           .ok (signedApi, [("Authorization", "auth_token T1")]))
    ∧ request "get" "https://ads-field.aylanetworks.com/apiv1/devices.json" none true
        3700 200 refreshedOk signedApi
        = ([.httpRequest "get" "https://ads-field.aylanetworks.com/apiv1/devices.json"],
           .ok (signedApi, [("Authorization", "auth_token T1")]))
    ∧ check_auth true 0 signedApi = .error .sharkIqAuthExpiredError := by decide

/-- C8 counterexample: calling `refresh_auth` on a never-signed-in session
does not fail with `SharkIqNotAuthedError`; it posts exactly one refresh
request carrying an absent (`None`) refresh token, and with a 200 response
it even installs the returned credentials. -/
theorem c8_counterexample :
    (refresh_auth 200 refreshedOk 0 initApi).1 = [.postRefreshToken none]
    ∧ isNotAuthedErr (refresh_auth 200 refreshedOk 0 initApi).2 = false
    ∧ (refresh_auth 200 refreshedOk 0 initApi).2
        = .ok { initApi with _access_token := some "T2", _refresh_token := some "R2",
                             _auth_expiration := some 86400, _is_authed := true } := by
  decide

/-- C8 amended: `refresh_auth` never raises a NotAuthenticated error.  On any
session it posts exactly one refresh request carrying the stored (possibly
absent) refresh token; failure can only come from the server's 401/404
answer, as a `SharkIqAuthError`. -/
theorem c8_refresh_posts_and_never_notauthed (status : Nat) (result : LoginResult)
    (now : Int) (s : AylaState) :
    (refresh_auth status result now s).1 = [.postRefreshToken s._refresh_token]
    ∧ isNotAuthedErr (refresh_auth status result now s).2 = false := by
  refine ⟨rfl, ?_⟩
  show isNotAuthedErr (_set_credentials status result now s) = false
  unfold _set_credentials
  split
  · rfl
  · split
    · rfl
    · rfl

/-- A device descriptor fixture. -/
def roDct : DeviceDct := ⟨"AC000Wxxx", 11, "RV1001AE20US", "Andy"⟩

/-- A device whose cache marks `Power_Mode` read-only. -/
def roDev : SharkIqVacuum :=
  { SharkIqVacuum.init roDct with
      properties_full :=
        [("Power_Mode".toList, [("read_only", .bool true), ("value", .int 1)])] }

/-- A freshly constructed device with an empty property cache. -/
def emptyDev : SharkIqVacuum := SharkIqVacuum.init ⟨"DSN1", 1, "RV", "S"⟩

/-- C3: read-only enforcement, evaluated on a device whose cached
`Power_Mode` entry has `read_only: true`.  The synchronous
`set_property_value` raises `SharkIqReadOnlyPropertyError` (its error result
carries no effect, so no HTTP request is issued and the cache is untouched),
but the asynchronous twin `set_property_value_async` has no read-only check
at all: on the same input it issues the datapoint POST and merges the
response into the cache. -/
theorem c3_read_only_sync_vs_async :
    set_property_value ("Power_Mode".toList) (.int 0) [("value", .int 0)] roDev
        = .error (.sharkIqReadOnlyPropertyError "Power_Mode is read only")
    ∧ set_property_value_async ("Power_Mode".toList) (.int 0) [("value", .int 0)] roDev
        = .ok ([.postDatapoint "AC000Wxxx" ("SET_Power_Mode".toList) (.int 0)],
               { roDev with properties_full :=
                   [("Power_Mode".toList,
                     [("read_only", .bool true), ("value", .int 0)])] }) := by
  decide

/-- C5 counterexample: reading a key absent from the cache does NOT leave the
cache unchanged.  On a freshly constructed device (empty cache) the lookup
returns an absent value, but the defaultdict fabricates an empty entry: the
cache length goes from 0 to 1. -/
theorem c5_counterexample :
    (get_property_value ("Battery_Capacity".toList) emptyDev).1 = none
    ∧ emptyDev.properties_full.length = 0
    ∧ ((get_property_value ("Battery_Capacity".toList) emptyDev).2).properties_full.length
        = 1 := by
  decide

/-- C5 amended: reading a key that is present returns its stored `value`
field and leaves the device unchanged; reading a missing key returns an
absent value but, `properties_full` being a `defaultdict(dict)`, appends an
empty entry for that key to the cache as a side effect. -/
theorem c5_lookup_is_defaultdict (s : SharkIqVacuum) (k : PStr) :
    match alGet s.properties_full k with
    | some d => get_property_value k s = (alGet d "value", s)
    | none => (get_property_value k s).1 = none
        ∧ (get_property_value k s).2.properties_full = s.properties_full ++ [(k, [])] := by
  cases h : alGet s.properties_full k with
  | some d =>
      simp only [get_property_value, view_getitem, dd_getitem, h]
  | none =>
      simp only [get_property_value, view_getitem, dd_getitem, h]
      exact ⟨rfl, trivial⟩

/-- C6 counterexample: a property whose name is a bare `GET` is NOT excluded
from the readable-properties cache: processing a response holding only a
property named `GET` leaves the cache with the key `GET`. -/
theorem c6_counterexample :
    (alGet (readable_properties [⟨"GET".toList, []⟩]) ("GET".toList)).isSome = true := by
  decide

/-- C6 amended: only a bare `SET` (case-insensitive) is excluded from the
readable-properties cache; the cache holds a key exactly when some response
entry whose full name does not uppercase to `SET` cleans (one leading
`SET_`/`GET_` stripped at most) to that key.  In particular a bare `GET` is
kept, cached under the unchanged key `GET`. -/
theorem c6_readable_key_rule (resp : List SrvProp) (k : PStr) :
    (alGet (readable_properties resp) k).isSome = true
      ↔ ∃ p ∈ resp, ¬upper p.name = ['S', 'E', 'T']
          ∧ _clean_property_name p.name = k :=
  readable_properties_key resp k

/-- C4: full versus partial update of the property cache.  A full update's
cache does not depend on the previous cache at all (first conjunct) and holds
exactly the cleaned non-bare-`SET` names of the response (second conjunct),
so stale keys disappear; a partial update keeps every previously present key
present (third conjunct) and leaves the entry of any key no response entry
cleans to untouched (fourth conjunct). -/
theorem c4_full_vs_partial_update (s t : SharkIqVacuum) (resp : List SrvProp) (k k' : PStr)
    (hk' : ∀ p ∈ resp, _clean_property_name p.name ≠ k') :
    ((_do_update true resp s).properties_full = (_do_update true resp t).properties_full)
    ∧ ((alGet (_do_update true resp s).properties_full k).isSome = true
        ↔ ∃ p ∈ resp, ¬upper p.name = ['S', 'E', 'T'] ∧ _clean_property_name p.name = k)
    ∧ ((alGet s.properties_full k).isSome = true
        → (alGet (_do_update false resp s).properties_full k).isSome = true)
    ∧ (alGet (_do_update false resp s).properties_full k'
        = alGet s.properties_full k') := by
  have hfull : (_do_update true resp s).properties_full
      = alUpdate [] (readable_properties resp) := rfl
  have hpart : (_do_update false resp s).properties_full
      = alUpdate s.properties_full (readable_properties resp) := rfl
  refine ⟨rfl, ?_, ?_, ?_⟩
  · rw [hfull, isSome_alGet_alUpdate]
    have hnil : (alGet ([] : PMap) k).isSome = false := rfl
    rw [hnil]
    simp only [Bool.false_eq_true, false_or]
    rw [← isSome_alGet_iff, readable_properties_key]
  · intro h
    rw [hpart, isSome_alGet_alUpdate]
    exact Or.inl h
  · rw [hpart]
    apply alGet_alUpdate_of_not_key
    intro kv hkv
    rcases readable_properties_key_src resp kv hkv with ⟨p, hp, hc⟩
    rw [← hc]
    exact hk' p hp

/-- A server response fixture: a settable marker `SET_Power_Mode`, the
readable `Power_Mode`, and a bare write-acknowledgement `SET`. -/
def respFixture : List SrvProp :=
  [⟨"SET_Power_Mode".toList, [("value", .int 1)]⟩,
   ⟨"Power_Mode".toList, [("value", .int 1), ("read_only", .bool false)]⟩,
   ⟨"SET".toList, [("value", .null)]⟩]

/-- Witness for C4 at concrete inputs: the update semantics evaluated on
`respFixture` against the caches of `roDev` and `emptyDev`, with
`Battery_Capacity` as the key no response entry cleans to. -/
theorem c4_witness :
    ((_do_update true respFixture roDev).properties_full
        = (_do_update true respFixture emptyDev).properties_full)
    ∧ ((alGet (_do_update true respFixture roDev).properties_full
          ("Power_Mode".toList)).isSome = true
        ↔ ∃ p ∈ respFixture, ¬upper p.name = ['S', 'E', 'T']
            ∧ _clean_property_name p.name = "Power_Mode".toList)
    ∧ ((alGet roDev.properties_full ("Power_Mode".toList)).isSome = true
        → (alGet (_do_update false respFixture roDev).properties_full
            ("Power_Mode".toList)).isSome = true)
    ∧ (alGet (_do_update false respFixture roDev).properties_full
          ("Battery_Capacity".toList)
        = alGet roDev.properties_full ("Battery_Capacity".toList)) :=
  c4_full_vs_partial_update roDev emptyDev respFixture ("Power_Mode".toList)
    ("Battery_Capacity".toList) (by decide)

/-- The settable set after a run of updates, related to the union the spec
describes, generalized over the starting state through an invariant on an
accumulator. -/
lemma runUpdates_settable (ops : List UpdateOp) (d : SharkIqVacuum) (acc : List PStr)
    (hinv : ∀ y, y ∈ d._settable_properties.getD [] ↔ y ∈ acc) :
    ∀ x, x ∈ (runUpdates ops d)._settable_properties.getD []
      ↔ x ∈ ops.foldl
          (fun acc op =>
            match op with
            | .refreshAll r => settable_props r
            | .refreshSome r => acc ++ settable_props r) acc := by
  induction ops generalizing d acc with
  | nil => exact hinv
  | cons op rest ih =>
      cases op with
      | refreshAll r =>
          exact ih (_do_update true r d) (settable_props r) (fun y => by simp [_do_update])
      | refreshSome r =>
          cases hs : d._settable_properties with
          | none =>
              refine ih (_do_update false r d) (acc ++ settable_props r) (fun y => ?_)
              have hy := hinv y
              rw [hs] at hy
              simp only [Option.getD_none, List.not_mem_nil, false_iff] at hy
              simp only [_do_update, hs, Option.isNone_none, Bool.or_true,
                Option.getD_some, List.mem_append]
              constructor
              · exact fun h => Or.inr h
              · rintro (h | h)
                · exact absurd h hy
                · exact h
          | some old =>
              refine ih (_do_update false r d) (acc ++ settable_props r) (fun y => ?_)
              have hy := hinv y
              rw [hs] at hy
              simp only [Option.getD_some] at hy
              simp only [_do_update, hs, Option.isNone_some, Bool.or_false,
                Bool.false_eq_true, if_false, Option.getD_some, List.mem_append,
                mem_sunion]
              rw [hy]

/-- C7: after any sequence of updates starting from a fresh device, a name is
in the settable set exactly when it is in the union of the settable names
observed in every update since the last full update (the whole history when
no full update occurred); and a partial update never removes a name from the
settable set. -/
theorem c7_settable_union_since_full (dct : DeviceDct) (ops : List UpdateOp)
    (resp : List SrvProp) (d : SharkIqVacuum) (x : PStr) :
    (x ∈ (runUpdates ops (SharkIqVacuum.init dct))._settable_properties.getD []
      ↔ x ∈ unionSinceLastFull ops)
    ∧ (x ∈ d._settable_properties.getD []
      → x ∈ (_do_update false resp d)._settable_properties.getD []) := by
  constructor
  · exact runUpdates_settable ops (SharkIqVacuum.init dct) []
      (fun y => by simp [SharkIqVacuum.init]) x
  · intro hx
    cases hs : d._settable_properties with
    | none =>
        rw [hs] at hx
        simp at hx
    | some old =>
        rw [hs] at hx
        simp only [Option.getD_some] at hx
        simp only [_do_update, hs, Option.isNone_some, Bool.or_false,
          Bool.false_eq_true, if_false, Option.getD_some, mem_sunion]
        exact Or.inl hx

/-- C10: the `vac_model_number` accessor returns the OEM model number copied
from the device descriptor — on a fresh device and on any device — and keeps
doing so after `_update_metadata` has stored a fetched vacuum model number;
the fetched number lands only in the `_vac_model_number` field, which the
accessor never reads. -/
theorem c10_vac_model_number_is_oem (dct : DeviceDct) (m : List MetaEntry)
    (d d' : SharkIqVacuum) (h : _update_metadata m d = .ok d') :
    vac_model_number (SharkIqVacuum.init dct) = dct.oem_model
    ∧ vac_model_number d = d._oem_model_number
    ∧ vac_model_number d' = vac_model_number d
    ∧ d'._vac_model_number = alGet (m.getLast?.getD ⟨[]⟩).value "vacModelNumber" := by
  unfold _update_metadata at h
  cases hm : m.getLast? with
  | none =>
      rw [hm] at h
      exact absurd h (by simp)
  | some data =>
      rw [hm] at h
      rw [Except.ok.injEq] at h
      subst h
      exact ⟨rfl, rfl, rfl, rfl⟩

/-- A metadata response fixture. -/
def metaFixture : List MetaEntry :=
  [⟨[("vacModelNumber", .str "RV1001AE"), ("vacSerialNumber", .str "S123")]⟩]

/-- The device `emptyDev` after `_update_metadata metaFixture`. -/
def metaDev : SharkIqVacuum :=
  { emptyDev with _vac_model_number := some (.str "RV1001AE"),
                  _vac_serial_number := some (.str "S123") }

/-- Witness for C10 at concrete inputs: after storing `metaFixture`'s
vacuum model number, the accessor still answers the descriptor's OEM model. -/
theorem c10_witness :
    vac_model_number (SharkIqVacuum.init roDct) = roDct.oem_model
    ∧ vac_model_number emptyDev = emptyDev._oem_model_number
    ∧ vac_model_number metaDev = vac_model_number emptyDev
    ∧ metaDev._vac_model_number
        = alGet (metaFixture.getLast?.getD ⟨[]⟩).value "vacModelNumber" :=
  c10_vac_model_number_is_oem roDct metaFixture emptyDev metaDev (by decide)

end SharkiqPy
